import Mathlib

/-!
Verification of the Call-Quality-Analyzer client (`src/app/page.tsx`).

The page owns four pieces of component state (`url`, `isLoading`, `result`,
`error`), a URL validator (`validateUrl`, a regular-expression test), a submit
handler (`handleSubmit`, which clears transient state, validates, and schedules
a mock backend response via `setTimeout`), and an export handler
(`handleDownload`).  This file embeds that logic shallowly:

* the JavaScript regular expression is transliterated into a small regex
  syntax with an inductive matching semantics, and the executable matcher
  `validateUrl` is proved equivalent to it;
* the component state and its three event handlers (input change, form
  submit, timer callback) become a step function on an explicit world that
  also records the pending `setTimeout` deadlines;
* `JSON.stringify(·, null, 2)` is modelled by an executable encoder, and a
  decoder is exhibited that inverts it.

JavaScript `number` fields are modelled as `Int` (the mock data is
integer-valued), and strings as Lean `String` (a list of Unicode scalar
values).
-/

/-! ## Data model (`interface AnalysisResult`, page.tsx lines 20–27) -/

/-- The `sentiment` field's type: the TS union `"positive" | "neutral" | "negative"`. -/
inductive Sentiment where
  | positive : Sentiment
  | neutral : Sentiment
  | negative : Sentiment
deriving DecidableEq

/-- `interface AnalysisResult` from page.tsx.  `number` fields are modelled as
`Int`; the TS interface has exactly these six fields, so a value of this
structure is always a complete unit. -/
structure AnalysisResult where
  talkTimeRatio : Int
  questionsCount : Int
  longestMonologue : Int
  sentiment : Sentiment
  insights : List String
  transcript : String
deriving DecidableEq

/-- The fixed mock data literal from the `setTimeout` callback
(page.tsx lines 55–68). -/
def mockResult : AnalysisResult :=
  { talkTimeRatio := 65
    questionsCount := 12
    longestMonologue := 42
    sentiment := Sentiment.positive
    insights :=
      [ "Customer showed strong interest in pricing options"
      , "Sales rep effectively addressed objections"
      , "Good use of open-ended questions in the first half"
      , "Consider reducing monologue length to increase engagement" ]
    transcript :=
      "Sales Rep: Hello, thank you for calling. How can I help you today?\nCustomer: Hi, I'm interested in your premium package...\n[Full transcript would be here]" }

/-! ## The URL validator's regular expression

`validateUrl` (page.tsx lines 35–39) tests its input against the JavaScript
regular expression

  `^(https?:\/\/)?(www\.)?(youtube\.com|youtu\.?be)\/.+$`

(no flags).  Without the `m` flag `^`/`$` anchor at the very start and end of
the string, so `RegExp.test` asks whether the whole string is in the regex's
language; `.` matches every character except the four ECMAScript line
terminators (LF, CR, U+2028, U+2029). -/

/-- Characters matched by an unescaped `.` in a JavaScript regex without the
`s` flag: everything except LF, CR, LINE SEPARATOR and PARAGRAPH SEPARATOR. -/
def isDotChar (c : Char) : Bool :=
  !(c = '\n' || c = '\r' || c.val = 0x2028 || c.val = 0x2029)

/-- Regular-expression syntax: the fragment needed for the source pattern. -/
inductive Regex where
  | emptyStr : Regex
  | char : Char → Regex
  | dot : Regex
  | cat : Regex → Regex → Regex
  | alt : Regex → Regex → Regex
  | star : Regex → Regex

/-- The language of a regex, as an inductive matching relation. -/
inductive Matches : Regex → List Char → Prop where
  | emptyStr : Matches Regex.emptyStr []
  | char (c : Char) : Matches (Regex.char c) [c]
  | dot {c : Char} : isDotChar c = true → Matches Regex.dot [c]
  | cat {r₁ r₂ : Regex} {l₁ l₂ : List Char} :
      Matches r₁ l₁ → Matches r₂ l₂ → Matches (Regex.cat r₁ r₂) (l₁ ++ l₂)
  | altL {r₁ r₂ : Regex} {l : List Char} :
      Matches r₁ l → Matches (Regex.alt r₁ r₂) l
  | altR {r₁ r₂ : Regex} {l : List Char} :
      Matches r₂ l → Matches (Regex.alt r₁ r₂) l
  | starNil {r : Regex} : Matches (Regex.star r) []
  | starCons {r : Regex} {l₁ l₂ : List Char} :
      Matches r l₁ → Matches (Regex.star r) l₂ → Matches (Regex.star r) (l₁ ++ l₂)

/-- A literal string of characters, as a regex. -/
def strR : List Char → Regex
  | [] => Regex.emptyStr
  | c :: cs => Regex.cat (Regex.char c) (strR cs)

/-- `r?` — zero or one occurrence. -/
def reOpt (r : Regex) : Regex := Regex.alt Regex.emptyStr r

/-- `r+` — one or more occurrences, i.e. `r` then `r*`. -/
def rePlus (r : Regex) : Regex := Regex.cat r (Regex.star r)

/-- The group `(https?:\/\/)` of the source pattern. -/
def schemeR : Regex :=
  Regex.cat (strR "http".data) (Regex.cat (reOpt (Regex.char 's')) (strR "://".data))

/-- The group `(youtube\.com|youtu\.?be)` of the source pattern. -/
def hostR : Regex :=
  Regex.alt (strR "youtube.com".data)
    (Regex.cat (strR "youtu".data) (Regex.cat (reOpt (Regex.char '.')) (strR "be".data)))

/-- The whole source pattern `^(https?:\/\/)?(www\.)?(youtube\.com|youtu\.?be)\/.+$`,
read as a whole-string match (the anchors). -/
def youtubeRegex : Regex :=
  Regex.cat (reOpt schemeR)
    (Regex.cat (reOpt (strR "www.".data))
      (Regex.cat hostR (Regex.cat (Regex.char '/') (rePlus Regex.dot))))

/-! ### An executable matcher for the pattern

The pattern is a finite alternation of literal word starts followed by
`/` and `.+`, so a matcher only has to try each of the finitely many literal
starts.  `validateUrl_matches` below proves this matcher computes exactly
`Matches youtubeRegex`. -/

/-- Remove a literal run of characters from the front of a list, if present. -/
def dropLit : List Char → List Char → Option (List Char)
  | [], cs => some cs
  | _ :: _, [] => none
  | p :: ps, c :: cs => if p = c then dropLit ps cs else none

/-- The language of `\/.+$` applied after the host: what follows the slash,
which must be a nonempty run of `.`-matchable characters. -/
def tailOk (cs : List Char) : Bool := !cs.isEmpty && cs.all isDotChar

/-- The three ways the optional scheme group can be read. -/
def schemeStarts : List (List Char) := [[], "http://".data, "https://".data]

/-- The two ways the optional `www.` group can be read. -/
def wwwStarts : List (List Char) := [[], "www.".data]

/-- The host alternatives of the source pattern: `youtube\.com`, and
`youtu\.?be` with the optional dot present (`youtu.be`) or absent (`youtube`). -/
def youtubeHosts : List (List Char) := ["youtube.com".data, "youtu.be".data, "youtube".data]

/-- Generic matcher for `^(scheme)?(www\.)?(host)\/.+$`, parametrised by the
list of host spellings. -/
def hostPatternMatch (hosts : List (List Char)) (cs : List Char) : Bool :=
  schemeStarts.any fun sch =>
    wwwStarts.any fun www =>
      hosts.any fun host =>
        match dropLit (sch ++ www ++ host ++ ['/']) cs with
        | some rest => tailOk rest
        | none => false

/-- `validateUrl` (page.tsx lines 35–39): tests the input against the YouTube
pattern.  A Lean function of the input string only — same input, same output,
no side effects — matching the source, whose `RegExp.test` call is pure.
`validateUrl_matches` proves it equivalent to the transliterated regex. -/
def validateUrl (input : String) : Bool :=
  hostPatternMatch youtubeHosts input.data

/-- Declarative shape of a string accepted by `^(scheme)?(www\.)?(host)\/.+$`:
an optional scheme, an optional `www.`, one of the host spellings, a slash,
and a nonempty `.`-matchable remainder. -/
def UrlShape (hosts : List (List Char)) (l : List Char) : Prop :=
  ∃ sch www host rest,
    sch ∈ schemeStarts ∧ www ∈ wwwStarts ∧ host ∈ hosts ∧
    rest ≠ [] ∧ rest.all isDotChar = true ∧
    l = sch ++ (www ++ (host ++ '/' :: rest))

/-! ## Controller state and event handlers

The component state (page.tsx lines 30–33) plus the multiset of pending
`setTimeout` deadlines forms the world.  The three handlers — the input's
`onChange`, the form's `onSubmit` (`handleSubmit`, lines 41–71) and the
`setTimeout` callback (lines 54–70) — each run to completion on the
single-threaded event loop, so each is a step function on the world.
React batches the `setState` calls inside one handler, so a handler's
writes become visible atomically. -/

/-- The four `useState` cells of the component (page.tsx lines 30–33). -/
structure ControllerState where
  url : String
  isLoading : Bool
  result : Option AnalysisResult
  error : Option String
deriving DecidableEq

/-- The controller state together with the pending `setTimeout` deadlines
(absolute times, in ms).  The source never cancels a timeout, so every
scheduled deadline stays pending until it fires. -/
structure World where
  ctrl : ControllerState
  timers : List Nat
deriving DecidableEq

/-- Initial state: empty input, not loading, no result, no error. -/
def initWorld : World :=
  { ctrl := { url := "", isLoading := false, result := none, error := none }
    timers := [] }

/-- The validation-failure message set in page.tsx line 47. -/
def invalidUrlMsg : String := "Please enter a valid YouTube URL"

/-- The mock backend's artificial delay (page.tsx line 70), in ms. -/
def analysisDelay : Nat := 2000

/-- `handleSubmit` (page.tsx lines 41–71): clear the error and the result
first, then validate; on failure set the error message and return without
contacting the backend; on success enter the loading state and schedule the
mock response `analysisDelay` ms later. -/
def handleSubmit (now : Nat) (w : World) : World :=
  let cleared : ControllerState := { w.ctrl with error := none, result := none }
  if validateUrl cleared.url = false then
    { w with ctrl := { cleared with error := some invalidUrlMsg } }
  else
    { ctrl := { cleared with isLoading := true }
      timers := w.timers ++ [now + analysisDelay] }

/-- The `setTimeout` callback body (page.tsx lines 54–70): store the fixed
mock result and leave the loading state.  The callback closes over no
submission-specific data, so every pending timer runs exactly this. -/
def applyAnalysisTimer (c : ControllerState) : ControllerState :=
  { c with result := some mockResult, isLoading := false }

/-- Advance the clock to `now`: every pending timer whose deadline has been
reached fires (in scheduling order), the rest stay pending. -/
def fireDue (now : Nat) (w : World) : World :=
  { ctrl := (w.timers.filter (fun t => decide (t ≤ now))).foldl
      (fun c _ => applyAnalysisTimer c) w.ctrl
    timers := w.timers.filter (fun t => decide (¬ t ≤ now)) }

/-- The discrete external events that drive the controller. -/
inductive Event where
  | changeUrl : String → Event
  | submit : Nat → Event
  | tick : Nat → Event

/-- One event handled to completion. -/
def step : Event → World → World
  | Event.changeUrl s, w => { w with ctrl := { w.ctrl with url := s } }
  | Event.submit now, w => handleSubmit now w
  | Event.tick now, w => fireDue now w

/-- A whole event sequence, run in order. -/
def run (es : List Event) (w : World) : World :=
  es.foldl (fun acc e => step e acc) w

/-- The Loading-state invariant of claim C10: whenever the loading flag is
set, no result and no error are held. -/
def LoadInv (c : ControllerState) : Prop :=
  c.isLoading = true → c.result = none ∧ c.error = none

/-! ## Export (`handleDownload`, page.tsx lines 73–91)

`handleDownload` reads the current `result`; with none it returns at once
(no blob, no anchor click, no exception).  Otherwise it serialises either
`JSON.stringify(result, null, 2)` or `result.transcript` into a blob with
the corresponding mime type and filename and triggers the download.  The
observable output — content string, mime type, filename — is modelled as an
`ExportFile`; `none` models the early return. -/

/-- The two download kinds: the `"json" | "transcript"` argument. -/
inductive DownloadKind where
  | json : DownloadKind
  | transcript : DownloadKind
deriving DecidableEq

/-- The observable output of a download: blob content (a string, encoded to
bytes as UTF-8 by the environment), mime type, and filename. -/
structure ExportFile where
  content : String
  mime : String
  filename : String
deriving DecidableEq

/-! ### A model of `JSON.stringify(·, null, 2)` on an `AnalysisResult`

`JSON.stringify` with indent 2 prints the object with its keys in insertion
order, one per line at indent 2, array elements one per line at indent 4, an
empty array as `[]`, integers in decimal, and strings quoted with `"`, `\`
and control characters escaped (`\b \t \n \f \r` short forms, other control
characters as lowercase `\u00xx`). -/

/-- Lowercase hexadecimal digit for `n < 16`. -/
def hexDigitChar : Nat → Char
  | 0 => '0' | 1 => '1' | 2 => '2' | 3 => '3' | 4 => '4'
  | 5 => '5' | 6 => '6' | 7 => '7' | 8 => '8' | 9 => '9'
  | 10 => 'a' | 11 => 'b' | 12 => 'c' | 13 => 'd' | 14 => 'e' | _ => 'f'

/-- How `JSON.stringify` escapes one character inside a string literal. -/
def escapeChar (c : Char) : List Char :=
  if c = '"' then ['\\', '"']
  else if c = '\\' then ['\\', '\\']
  else if c = '\x08' then ['\\', 'b']
  else if c = '\t' then ['\\', 't']
  else if c = '\n' then ['\\', 'n']
  else if c = '\x0c' then ['\\', 'f']
  else if c = '\r' then ['\\', 'r']
  else if c.toNat < 0x20 then
    ['\\', 'u', '0', '0', hexDigitChar (c.toNat / 16), hexDigitChar (c.toNat % 16)]
  else [c]

/-- Escape every character of a string body. -/
def escapeList : List Char → List Char
  | [] => []
  | c :: cs => escapeChar c ++ escapeList cs

/-- A JSON string literal: quote, escaped body, quote. -/
def jstr (s : String) : List Char := '"' :: (escapeList s.data ++ ['"'])

/-- Decimal digit character for `n < 10`. -/
def digitChar : Nat → Char
  | 0 => '0' | 1 => '1' | 2 => '2' | 3 => '3' | 4 => '4'
  | 5 => '5' | 6 => '6' | 7 => '7' | 8 => '8' | _ => '9'

/-- Decimal digits of a natural number, most significant first. -/
def natChars (n : Nat) : List Char :=
  if _h : n < 10 then [digitChar n]
  else natChars (n / 10) ++ [digitChar (n % 10)]
decreasing_by exact Nat.div_lt_self (by omega) (by omega)

/-- Decimal rendering of an integer, as `JSON.stringify` prints an
integer-valued number. -/
def intChars (i : Int) : List Char :=
  if i < 0 then '-' :: natChars (-i).toNat else natChars i.toNat

/-- The string form of a `sentiment` value. -/
def sentimentStr : Sentiment → String
  | Sentiment.positive => "positive"
  | Sentiment.neutral => "neutral"
  | Sentiment.negative => "negative"

/-- Array elements at indent 4, comma-separated, one per line. -/
def jsonItems : List String → List Char
  | [] => []
  | [x] => jstr x
  | x :: y :: xs => jstr x ++ (",\n    ".data ++ jsonItems (y :: xs))

/-- A string array at indent 2: `[]` when empty, else elements at indent 4
and the closing bracket at indent 2. -/
def jsonArr (xs : List String) : List Char :=
  match xs with
  | [] => "[]".data
  | _ => "[\n    ".data ++ (jsonItems xs ++ "\n  ]".data)

/-- `JSON.stringify(r, null, 2)` for an `AnalysisResult`, character by
character. -/
def jsonEncodeChars (r : AnalysisResult) : List Char :=
  "\x7b\n  \"talkTimeRatio\": ".data ++ intChars r.talkTimeRatio
  ++ ",\n  \"questionsCount\": ".data ++ intChars r.questionsCount
  ++ ",\n  \"longestMonologue\": ".data ++ intChars r.longestMonologue
  ++ ",\n  \"sentiment\": ".data ++ jstr (sentimentStr r.sentiment)
  ++ ",\n  \"insights\": ".data ++ jsonArr r.insights
  ++ ",\n  \"transcript\": ".data ++ jstr r.transcript
  ++ "\n\x7d".data

/-- `JSON.stringify(r, null, 2)` as a string. -/
def jsonEncode (r : AnalysisResult) : String := String.mk (jsonEncodeChars r)

/-! ### A decoder inverting the encoder (the round-trip witness of C8) -/

/-- Value of a hexadecimal digit character. -/
def hexVal (c : Char) : Option Nat :=
  if '0' ≤ c ∧ c ≤ '9' then some (c.toNat - '0'.toNat)
  else if 'a' ≤ c ∧ c ≤ 'f' then some (c.toNat - 'a'.toNat + 10)
  else if 'A' ≤ c ∧ c ≤ 'F' then some (c.toNat - 'A'.toNat + 10)
  else none

/-- The character denoted by a short escape `\x` for `x` in `"\/bfnrt`. -/
def unescapeShort (c : Char) : Option Char :=
  if c = '"' then some '"'
  else if c = '\\' then some '\\'
  else if c = '/' then some '/'
  else if c = 'b' then some '\x08'
  else if c = 'f' then some '\x0c'
  else if c = 'n' then some '\n'
  else if c = 'r' then some '\r'
  else if c = 't' then some '\t'
  else none

/-- Read an escaped string body up to the closing quote; return the decoded
body and the remainder after the quote. -/
def parseStrBody : List Char → Option (List Char × List Char)
  | [] => none
  | c :: rest =>
    if c = '"' then some ([], rest)
    else if c = '\\' then
      match rest with
      | [] => none
      | e :: rest2 =>
        if e = 'u' then
          match rest2 with
          | h1 :: h2 :: h3 :: h4 :: rest3 =>
            match hexVal h1, hexVal h2, hexVal h3, hexVal h4 with
            | some a, some b, some c4, some d =>
              match parseStrBody rest3 with
              | some (out, rem) =>
                some (Char.ofNat (((a * 16 + b) * 16 + c4) * 16 + d) :: out, rem)
              | none => none
            | _, _, _, _ => none
          | _ => none
        else
          match unescapeShort e with
          | some c2 =>
            match parseStrBody rest2 with
            | some (out, rem) => some (c2 :: out, rem)
            | none => none
          | none => none
    else
      match parseStrBody rest with
      | some (out, rem) => some (c :: out, rem)
      | none => none

/-- Read a quoted JSON string literal. -/
def parseJString (cs : List Char) : Option (String × List Char) :=
  if cs.head? = some '"' then
    match parseStrBody cs.tail with
    | some (out, rem) => some (String.mk out, rem)
    | none => none
  else none

/-- Decimal digit test. -/
def isDigitCh (c : Char) : Bool := '0' ≤ c && c ≤ '9'

/-- Value of a run of decimal digits, most significant first. -/
def digitsVal (ds : List Char) : Nat :=
  ds.foldl (fun acc c => acc * 10 + (c.toNat - '0'.toNat)) 0

/-- Read a maximal nonempty run of decimal digits. -/
def parseNat (cs : List Char) : Option (Nat × List Char) :=
  let ds := cs.takeWhile isDigitCh
  if ds.isEmpty then none else some (digitsVal ds, cs.dropWhile isDigitCh)

/-- Read an optionally negated decimal integer. -/
def parseInt (cs : List Char) : Option (Int × List Char) :=
  if cs.head? = some '-' then
    match parseNat cs.tail with
    | some (n, rem) => some (-(n : Int), rem)
    | none => none
  else
    match parseNat cs with
    | some (n, rem) => some ((n : Int), rem)
    | none => none

/-- Read the elements of a nonempty string array rendered at indent 4, the
first element starting at the head of the input; after each element either a
`,` separator introduces the next element or the closing bracket line ends
the array. -/
def parseArrItems : Nat → List Char → Option (List String × List Char)
  | 0, _ => none
  | fuel + 1, cs =>
    match parseJString cs with
    | none => none
    | some (s, rest) =>
      match dropLit ",\n    ".data rest with
      | some rest2 =>
        match parseArrItems fuel rest2 with
        | some (xs, rem) => some (s :: xs, rem)
        | none => none
      | none =>
        match dropLit "\n  ]".data rest with
        | some rest2 => some ([s], rest2)
        | none => none

/-- Read a string array as produced by `jsonArr`. -/
def parseArr (cs : List Char) : Option (List String × List Char) :=
  match dropLit "[]".data cs with
  | some rest => some ([], rest)
  | none =>
    match dropLit "[\n    ".data cs with
    | some rest => parseArrItems (rest.length + 1) rest
    | none => none

/-- Recognise a sentiment string. -/
def parseSentiment (s : String) : Option Sentiment :=
  if s = "positive" then some Sentiment.positive
  else if s = "neutral" then some Sentiment.neutral
  else if s = "negative" then some Sentiment.negative
  else none

/-- Decode the output of `jsonEncodeChars`: walk the fixed key skeleton and
read each field's value.  Rejects trailing garbage. -/
def jsonDecodeChars (cs : List Char) : Option AnalysisResult := do
  let cs ← dropLit "\x7b\n  \"talkTimeRatio\": ".data cs
  let (ttr, cs) ← parseInt cs
  let cs ← dropLit ",\n  \"questionsCount\": ".data cs
  let (qc, cs) ← parseInt cs
  let cs ← dropLit ",\n  \"longestMonologue\": ".data cs
  let (lm, cs) ← parseInt cs
  let cs ← dropLit ",\n  \"sentiment\": ".data cs
  let (sent, cs) ← parseJString cs
  let sentV ← parseSentiment sent
  let cs ← dropLit ",\n  \"insights\": ".data cs
  let (ins, cs) ← parseArr cs
  let cs ← dropLit ",\n  \"transcript\": ".data cs
  let (tr, cs) ← parseJString cs
  let cs ← dropLit "\n\x7d".data cs
  match cs with
  | [] => some ⟨ttr, qc, lm, sentV, ins, tr⟩
  | _ => none

/-- Decode a JSON document produced by `jsonEncode`. -/
def jsonDecode (s : String) : Option AnalysisResult := jsonDecodeChars s.data

/-- `handleDownload` (page.tsx lines 73–91), as a function of the current
result and the requested kind: with no result it is an early `return`
(no file, no error); otherwise it produces the blob content, mime type and
filename of the triggered download. -/
def handleDownload (result : Option AnalysisResult) (kind : DownloadKind) : Option ExportFile :=
  match result with
  | none => none
  | some r =>
    some
      { content :=
          match kind with
          | DownloadKind.json => jsonEncode r
          | DownloadKind.transcript => r.transcript
        mime :=
          match kind with
          | DownloadKind.json => "application/json"
          | DownloadKind.transcript => "text/plain"
        filename :=
          "sales-analysis." ++
            match kind with
            | DownloadKind.json => "json"
            | DownloadKind.transcript => "txt" }

/-! ## Concrete scenarios used by the claim theorems -/

/-- The host spellings named by claim C3's sentence, read literally:
`youtube.com`, `youtu.be`, and `youtu.be` with one stray (extra) period,
wherever that period is placed. -/
def claimC3Hosts : List (List Char) :=
  [ "youtube.com".data, "youtu.be".data
  , ".youtu.be".data, "y.outu.be".data, "yo.utu.be".data, "you.tu.be".data
  , "yout.u.be".data, "youtu..be".data, "youtu.b.e".data, "youtu.be.".data ]

/-- A world holding a stale result and a stale error from an earlier cycle,
with a valid URL in the input field. -/
def staleWorld : World :=
  { ctrl := { url := "youtu.be/x", isLoading := false, result := some mockResult,
              error := some "old error" }
    timers := [] }

/-- Two valid submissions 1000 ms apart, then the clock reaching the first
cycle's deadline (t = 2000) while the second cycle's timer (deadline
t = 3000) is still pending. -/
def overlapTrace : List Event :=
  [ Event.changeUrl "https://youtube.com/call-1", Event.submit 0
  , Event.changeUrl "https://youtube.com/call-2", Event.submit 1000
  , Event.tick 2000 ]

/-- A valid submission entering `Loading`, then — before the backend timer
fires — a submission with an invalid (empty) URL. -/
def loadingInvalidTrace : List Event :=
  [ Event.changeUrl "youtu.be/x", Event.submit 0
  , Event.changeUrl "", Event.submit 1000 ]

/-! ## Theorems

### Language of the transliterated regex -/

theorem matches_emptyStr_iff {l : List Char} : Matches Regex.emptyStr l ↔ l = [] := by
  constructor
  · intro h; cases h; rfl
  · rintro rfl; exact Matches.emptyStr

theorem matches_char_iff {c : Char} {l : List Char} :
    Matches (Regex.char c) l ↔ l = [c] := by
  constructor
  · intro h; cases h; rfl
  · rintro rfl; exact Matches.char c

theorem matches_dot_iff {l : List Char} :
    Matches Regex.dot l ↔ ∃ c, l = [c] ∧ isDotChar c = true := by
  constructor
  · intro h
    cases h with
    | dot hc => exact ⟨_, rfl, hc⟩
  · rintro ⟨c, rfl, hc⟩; exact Matches.dot hc

theorem matches_cat_iff {r₁ r₂ : Regex} {l : List Char} :
    Matches (Regex.cat r₁ r₂) l ↔
      ∃ l₁ l₂, Matches r₁ l₁ ∧ Matches r₂ l₂ ∧ l = l₁ ++ l₂ := by
  constructor
  · intro h
    cases h with
    | cat h₁ h₂ => exact ⟨_, _, h₁, h₂, rfl⟩
  · rintro ⟨l₁, l₂, h₁, h₂, rfl⟩; exact Matches.cat h₁ h₂

theorem matches_alt_iff {r₁ r₂ : Regex} {l : List Char} :
    Matches (Regex.alt r₁ r₂) l ↔ Matches r₁ l ∨ Matches r₂ l := by
  constructor
  · intro h
    cases h with
    | altL h => exact Or.inl h
    | altR h => exact Or.inr h
  · rintro (h | h)
    · exact Matches.altL h
    · exact Matches.altR h

theorem matches_strR_iff : ∀ (cs l : List Char), Matches (strR cs) l ↔ l = cs := by
  intro cs
  induction cs with
  | nil => intro l; simpa [strR] using matches_emptyStr_iff
  | cons c cs ih =>
    intro l
    simp [strR, matches_cat_iff, matches_char_iff, ih]

theorem matches_reOpt_iff {r : Regex} {l : List Char} :
    Matches (reOpt r) l ↔ l = [] ∨ Matches r l := by
  simp [reOpt, matches_alt_iff, matches_emptyStr_iff]

theorem star_dot_all {r : Regex} {l : List Char} (h : Matches r l) :
    r = Regex.star Regex.dot → l.all isDotChar = true := by
  induction h with
  | emptyStr => intro heq; exact Regex.noConfusion heq
  | char c => intro heq; exact Regex.noConfusion heq
  | dot hc => intro heq; exact Regex.noConfusion heq
  | cat h₁ h₂ ih₁ ih₂ => intro heq; exact Regex.noConfusion heq
  | altL h ih => intro heq; exact Regex.noConfusion heq
  | altR h ih => intro heq; exact Regex.noConfusion heq
  | starNil => intro _; rfl
  | starCons h₁ h₂ ih₁ ih₂ =>
    intro heq
    injection heq with hr
    subst hr
    rcases matches_dot_iff.1 h₁ with ⟨c, rfl, hc⟩
    have h₂' := ih₂ rfl
    simp [List.all_append, hc, h₂']

theorem matches_star_dot_iff {l : List Char} :
    Matches (Regex.star Regex.dot) l ↔ l.all isDotChar = true := by
  constructor
  · intro h; exact star_dot_all h rfl
  · intro h
    induction l with
    | nil => exact Matches.starNil
    | cons c cs ih =>
      simp only [List.all_cons, Bool.and_eq_true] at h
      exact Matches.starCons (Matches.dot h.1) (ih h.2)

theorem matches_rePlusDot_iff {l : List Char} :
    Matches (rePlus Regex.dot) l ↔ l ≠ [] ∧ l.all isDotChar = true := by
  constructor
  · intro h
    rcases matches_cat_iff.1 h with ⟨l₁, l₂, h₁, h₂, rfl⟩
    rcases matches_dot_iff.1 h₁ with ⟨c, rfl, hc⟩
    have h₂' := matches_star_dot_iff.1 h₂
    simp [List.all_append, hc, h₂']
  · rintro ⟨hne, hall⟩
    rcases l with _ | ⟨c, cs⟩
    · exact absurd rfl hne
    · simp only [List.all_cons, Bool.and_eq_true] at hall
      exact Matches.cat (Matches.dot hall.1) (matches_star_dot_iff.2 hall.2)

theorem matches_schemeR_iff {l : List Char} :
    Matches schemeR l ↔ l = "http://".data ∨ l = "https://".data := by
  constructor
  · intro h
    rcases matches_cat_iff.1 h with ⟨l₁, l₂, h₁, h₂, rfl⟩
    rw [matches_strR_iff] at h₁; subst h₁
    rcases matches_cat_iff.1 h₂ with ⟨l₃, l₄, h₃, h₄, rfl⟩
    rw [matches_strR_iff] at h₄; subst h₄
    rcases matches_reOpt_iff.1 h₃ with h₃ | h₃
    · subst h₃; left; decide
    · rw [matches_char_iff] at h₃; subst h₃; right; decide
  · rintro (rfl | rfl)
    · rw [show "http://".data = "http".data ++ ([] ++ "://".data) from by decide]
      exact Matches.cat ((matches_strR_iff _ _).2 rfl)
        (Matches.cat (matches_reOpt_iff.2 (Or.inl rfl)) ((matches_strR_iff _ _).2 rfl))
    · rw [show "https://".data = "http".data ++ (['s'] ++ "://".data) from by decide]
      exact Matches.cat ((matches_strR_iff _ _).2 rfl)
        (Matches.cat (matches_reOpt_iff.2 (Or.inr (matches_char_iff.2 rfl)))
          ((matches_strR_iff _ _).2 rfl))

theorem matches_hostR_iff {l : List Char} :
    Matches hostR l ↔ l ∈ youtubeHosts := by
  constructor
  · intro h
    rcases matches_alt_iff.1 h with h | h
    · rw [matches_strR_iff] at h; subst h; decide
    · rcases matches_cat_iff.1 h with ⟨l₁, l₂, h₁, h₂, rfl⟩
      rw [matches_strR_iff] at h₁; subst h₁
      rcases matches_cat_iff.1 h₂ with ⟨l₃, l₄, h₃, h₄, rfl⟩
      rw [matches_strR_iff] at h₄; subst h₄
      rcases matches_reOpt_iff.1 h₃ with h₃ | h₃
      · subst h₃; decide
      · rw [matches_char_iff] at h₃; subst h₃; decide
  · intro hmem
    rcases (by simpa [youtubeHosts] using hmem :
        l = "youtube.com".data ∨ l = "youtu.be".data ∨ l = "youtube".data) with rfl | rfl | rfl
    · exact Matches.altL ((matches_strR_iff _ _).2 rfl)
    · apply Matches.altR
      rw [show "youtu.be".data = "youtu".data ++ (['.'] ++ "be".data) from by decide]
      exact Matches.cat ((matches_strR_iff _ _).2 rfl)
        (Matches.cat (matches_reOpt_iff.2 (Or.inr (matches_char_iff.2 rfl)))
          ((matches_strR_iff _ _).2 rfl))
    · apply Matches.altR
      rw [show "youtube".data = "youtu".data ++ ([] ++ "be".data) from by decide]
      exact Matches.cat ((matches_strR_iff _ _).2 rfl)
        (Matches.cat (matches_reOpt_iff.2 (Or.inl rfl)) ((matches_strR_iff _ _).2 rfl))

theorem matches_optScheme_iff {l : List Char} :
    Matches (reOpt schemeR) l ↔ l ∈ schemeStarts := by
  rw [matches_reOpt_iff, matches_schemeR_iff]
  constructor
  · rintro (rfl | rfl | rfl) <;> decide
  · intro h
    rcases (by simpa [schemeStarts] using h :
        l = [] ∨ l = "http://".data ∨ l = "https://".data) with rfl | rfl | rfl
    · exact Or.inl rfl
    · exact Or.inr (Or.inl rfl)
    · exact Or.inr (Or.inr rfl)

theorem matches_optWww_iff {l : List Char} :
    Matches (reOpt (strR "www.".data)) l ↔ l ∈ wwwStarts := by
  rw [matches_reOpt_iff, matches_strR_iff]
  constructor
  · rintro (rfl | rfl) <;> decide
  · intro h
    rcases (by simpa [wwwStarts] using h : l = [] ∨ l = "www.".data) with rfl | rfl
    · exact Or.inl rfl
    · exact Or.inr rfl

theorem matches_youtubeRegex_iff {l : List Char} :
    Matches youtubeRegex l ↔ UrlShape youtubeHosts l := by
  constructor
  · intro h
    rcases matches_cat_iff.1 h with ⟨sch, l₂, hsch, h₂, rfl⟩
    rcases matches_cat_iff.1 h₂ with ⟨www, l₃, hwww, h₃, rfl⟩
    rcases matches_cat_iff.1 h₃ with ⟨host, l₄, hhost, h₄, rfl⟩
    rcases matches_cat_iff.1 h₄ with ⟨sl, rest, hsl, hrest, rfl⟩
    rw [matches_char_iff] at hsl; subst hsl
    rcases matches_rePlusDot_iff.1 hrest with ⟨hne, hall⟩
    exact ⟨sch, www, host, rest, matches_optScheme_iff.1 hsch,
      matches_optWww_iff.1 hwww, matches_hostR_iff.1 hhost, hne, hall, rfl⟩
  · rintro ⟨sch, www, host, rest, hsch, hwww, hhost, hne, hall, rfl⟩
    exact Matches.cat (matches_optScheme_iff.2 hsch)
      (Matches.cat (matches_optWww_iff.2 hwww)
        (Matches.cat (matches_hostR_iff.2 hhost)
          (Matches.cat (matches_char_iff.2 rfl)
            (matches_rePlusDot_iff.2 ⟨hne, hall⟩))))

/-! ### Correctness of the executable matcher -/

theorem dropLit_eq_some {p : List Char} : ∀ {cs rest : List Char},
    dropLit p cs = some rest ↔ cs = p ++ rest := by
  induction p with
  | nil => intro cs rest; simp [dropLit]
  | cons p ps ih =>
    intro cs rest
    cases cs with
    | nil => simp [dropLit]
    | cons c cs =>
      by_cases h : p = c
      · subst h; simp [dropLit, ih]
      · simp [dropLit, h]
        exact fun hcp _ => h hcp.symm

theorem tailOk_iff {cs : List Char} :
    tailOk cs = true ↔ cs ≠ [] ∧ cs.all isDotChar = true := by
  cases cs <;> simp [tailOk]

theorem hostPatternMatch_iff {hosts : List (List Char)} {cs : List Char} :
    hostPatternMatch hosts cs = true ↔ UrlShape hosts cs := by
  constructor
  · intro h
    simp only [hostPatternMatch, List.any_eq_true] at h
    obtain ⟨sch, hsch, www, hwww, host, hhost, hm⟩ := h
    cases hd : dropLit (sch ++ www ++ host ++ ['/']) cs with
    | none => rw [hd] at hm; exact absurd hm (by simp)
    | some rest =>
      rw [hd] at hm
      have hcs := dropLit_eq_some.1 hd
      obtain ⟨hne, hall⟩ := tailOk_iff.1 hm
      exact ⟨sch, www, host, rest, hsch, hwww, hhost, hne, hall, by
        rw [hcs]; simp [List.append_assoc]⟩
  · rintro ⟨sch, www, host, rest, hsch, hwww, hhost, hne, hall, rfl⟩
    simp only [hostPatternMatch, List.any_eq_true]
    refine ⟨sch, hsch, www, hwww, host, hhost, ?_⟩
    have hd : dropLit (sch ++ www ++ host ++ ['/'])
        (sch ++ (www ++ (host ++ '/' :: rest))) = some rest :=
      dropLit_eq_some.2 (by simp [List.append_assoc])
    rw [hd]
    exact tailOk_iff.2 ⟨hne, hall⟩

/-! ### String escaping round trip -/

theorem psb_quote (rest : List Char) : parseStrBody ('"' :: rest) = some ([], rest) := by
  rw [parseStrBody.eq_def]; simp only [Char.reduceEq, reduceIte]

theorem psb_esc_quote (tail : List Char) :
    parseStrBody ('\\' :: '"' :: tail) =
      match parseStrBody tail with
      | some (out, rem) => some ('"' :: out, rem)
      | none => none := by
  rw [parseStrBody.eq_def]; simp only [Char.reduceEq, reduceIte, unescapeShort]

theorem psb_esc_back (tail : List Char) :
    parseStrBody ('\\' :: '\\' :: tail) =
      match parseStrBody tail with
      | some (out, rem) => some ('\\' :: out, rem)
      | none => none := by
  rw [parseStrBody.eq_def]; simp only [Char.reduceEq, reduceIte, unescapeShort]

theorem psb_esc_b (tail : List Char) :
    parseStrBody ('\\' :: 'b' :: tail) =
      match parseStrBody tail with
      | some (out, rem) => some ('\x08' :: out, rem)
      | none => none := by
  rw [parseStrBody.eq_def]; simp only [Char.reduceEq, reduceIte, unescapeShort]

theorem psb_esc_t (tail : List Char) :
    parseStrBody ('\\' :: 't' :: tail) =
      match parseStrBody tail with
      | some (out, rem) => some ('\t' :: out, rem)
      | none => none := by
  rw [parseStrBody.eq_def]; simp only [Char.reduceEq, reduceIte, unescapeShort]

theorem psb_esc_n (tail : List Char) :
    parseStrBody ('\\' :: 'n' :: tail) =
      match parseStrBody tail with
      | some (out, rem) => some ('\n' :: out, rem)
      | none => none := by
  rw [parseStrBody.eq_def]; simp only [Char.reduceEq, reduceIte, unescapeShort]

theorem psb_esc_f (tail : List Char) :
    parseStrBody ('\\' :: 'f' :: tail) =
      match parseStrBody tail with
      | some (out, rem) => some ('\x0c' :: out, rem)
      | none => none := by
  rw [parseStrBody.eq_def]; simp only [Char.reduceEq, reduceIte, unescapeShort]

theorem psb_esc_r (tail : List Char) :
    parseStrBody ('\\' :: 'r' :: tail) =
      match parseStrBody tail with
      | some (out, rem) => some ('\r' :: out, rem)
      | none => none := by
  rw [parseStrBody.eq_def]; simp only [Char.reduceEq, reduceIte, unescapeShort]

theorem psb_esc_u (h1 h2 h3 h4 : Char) {a b c4 d : Nat}
    (e1 : hexVal h1 = some a) (e2 : hexVal h2 = some b)
    (e3 : hexVal h3 = some c4) (e4 : hexVal h4 = some d) (tail : List Char) :
    parseStrBody ('\\' :: 'u' :: h1 :: h2 :: h3 :: h4 :: tail) =
      match parseStrBody tail with
      | some (out, rem) =>
        some (Char.ofNat (((a * 16 + b) * 16 + c4) * 16 + d) :: out, rem)
      | none => none := by
  rw [parseStrBody.eq_def]
  simp only [Char.reduceEq, reduceIte, e1, e2, e3, e4]

theorem psb_plain {c : Char} (hq : c ≠ '"') (hb : c ≠ '\\') (tail : List Char) :
    parseStrBody (c :: tail) =
      match parseStrBody tail with
      | some (out, rem) => some (c :: out, rem)
      | none => none := by
  rw [parseStrBody.eq_def]
  simp only [hq, hb, reduceIte]

theorem hexVal_hexDigitChar : ∀ m : Nat, m < 16 → hexVal (hexDigitChar m) = some m := by
  decide

theorem parseStrBody_escape (cs : List Char) : ∀ rest : List Char,
    parseStrBody (escapeList cs ++ '"' :: rest) = some (cs, rest) := by
  induction cs with
  | nil => intro rest; simp [escapeList, psb_quote]
  | cons c cs ih =>
    intro rest
    simp only [escapeList, List.append_assoc]
    by_cases h1 : c = '"'
    · subst h1
      rw [show escapeChar '"' ++ (escapeList cs ++ '"' :: rest) =
            '\\' :: '"' :: (escapeList cs ++ '"' :: rest) from rfl,
          psb_esc_quote, ih]
    by_cases h2 : c = '\\'
    · subst h2
      rw [show escapeChar '\\' ++ (escapeList cs ++ '"' :: rest) =
            '\\' :: '\\' :: (escapeList cs ++ '"' :: rest) from rfl,
          psb_esc_back, ih]
    by_cases h3 : c = '\x08'
    · subst h3
      rw [show escapeChar '\x08' ++ (escapeList cs ++ '"' :: rest) =
            '\\' :: 'b' :: (escapeList cs ++ '"' :: rest) from rfl,
          psb_esc_b, ih]
    by_cases h4 : c = '\t'
    · subst h4
      rw [show escapeChar '\t' ++ (escapeList cs ++ '"' :: rest) =
            '\\' :: 't' :: (escapeList cs ++ '"' :: rest) from rfl,
          psb_esc_t, ih]
    by_cases h5 : c = '\n'
    · subst h5
      rw [show escapeChar '\n' ++ (escapeList cs ++ '"' :: rest) =
            '\\' :: 'n' :: (escapeList cs ++ '"' :: rest) from rfl,
          psb_esc_n, ih]
    by_cases h6 : c = '\x0c'
    · subst h6
      rw [show escapeChar '\x0c' ++ (escapeList cs ++ '"' :: rest) =
            '\\' :: 'f' :: (escapeList cs ++ '"' :: rest) from rfl,
          psb_esc_f, ih]
    by_cases h7 : c = '\r'
    · subst h7
      rw [show escapeChar '\r' ++ (escapeList cs ++ '"' :: rest) =
            '\\' :: 'r' :: (escapeList cs ++ '"' :: rest) from rfl,
          psb_esc_r, ih]
    by_cases h8 : c.toNat < 0x20
    · rw [show escapeChar c ++ (escapeList cs ++ '"' :: rest) =
            '\\' :: 'u' :: '0' :: '0' :: hexDigitChar (c.toNat / 16) ::
              hexDigitChar (c.toNat % 16) :: (escapeList cs ++ '"' :: rest) from by
          simp [escapeChar, h1, h2, h3, h4, h5, h6, h7, h8]]
      rw [psb_esc_u '0' '0' (hexDigitChar (c.toNat / 16)) (hexDigitChar (c.toNat % 16))
            (by decide : hexVal '0' = some 0) (by decide : hexVal '0' = some 0)
            (hexVal_hexDigitChar (c.toNat / 16) (by omega))
            (hexVal_hexDigitChar (c.toNat % 16) (by omega))
            (escapeList cs ++ '"' :: rest),
          ih]
      have hv : ((0 * 16 + 0) * 16 + c.toNat / 16) * 16 + c.toNat % 16 = c.toNat := by
        omega
      rw [hv, Char.ofNat_toNat]
    · rw [show escapeChar c ++ (escapeList cs ++ '"' :: rest) =
            c :: (escapeList cs ++ '"' :: rest) from by
          simp [escapeChar, h1, h2, h3, h4, h5, h6, h7, h8],
          psb_plain h1 h2, ih]

/-! ### Number printing round trip -/

theorem digitChar_spec : ∀ n : Nat, n < 10 →
    isDigitCh (digitChar n) = true ∧ (digitChar n).toNat - '0'.toNat = n := by
  decide

theorem natChars_spec (n : Nat) :
    (natChars n).all isDigitCh = true ∧ natChars n ≠ [] ∧ digitsVal (natChars n) = n := by
  induction n using Nat.strong_induction_on with
  | _ n ih =>
    by_cases h : n < 10
    · rw [show natChars n = [digitChar n] from by unfold natChars; rw [dif_pos h]]
      obtain ⟨hd1, hd2⟩ := digitChar_spec n h
      exact ⟨by simp [hd1], by simp, by simpa [digitsVal] using hd2⟩
    · rw [show natChars n = natChars (n / 10) ++ [digitChar (n % 10)] from by
        rw [natChars.eq_def]; rw [dif_neg h]]
      have hlt : n / 10 < n := Nat.div_lt_self (by omega) (by omega)
      obtain ⟨ih1, ih2, ih3⟩ := ih (n / 10) hlt
      have hm : n % 10 < 10 := Nat.mod_lt _ (by omega)
      obtain ⟨hd1, hd2⟩ := digitChar_spec _ hm
      refine ⟨by simp [List.all_append, ih1, hd1], by simp, ?_⟩
      have hsplit : digitsVal (natChars (n / 10) ++ [digitChar (n % 10)]) =
          digitsVal (natChars (n / 10)) * 10 + ((digitChar (n % 10)).toNat - '0'.toNat) := by
        simp [digitsVal, List.foldl_append]
      rw [hsplit, ih3, hd2]
      omega

theorem takeWhile_append_all {p : Char → Bool} :
    ∀ l : List Char, l.all p = true → ∀ c : Char, p c = false → ∀ t : List Char,
      (l ++ c :: t).takeWhile p = l ∧ (l ++ c :: t).dropWhile p = c :: t := by
  intro l
  induction l with
  | nil =>
    intro _ c hc t
    constructor <;> simp [List.takeWhile_cons, List.dropWhile_cons, hc]
  | cons x xs ih =>
    intro hall c hc t
    simp only [List.all_cons, Bool.and_eq_true] at hall
    obtain ⟨hx, hxs⟩ := hall
    obtain ⟨h1, h2⟩ := ih hxs c hc t
    constructor <;> simp [List.takeWhile_cons, List.dropWhile_cons, hx, h1, h2]

theorem parseNat_natChars (n : Nat) (c : Char) (hc : isDigitCh c = false) (t : List Char) :
    parseNat (natChars n ++ c :: t) = some (n, c :: t) := by
  obtain ⟨hall, hne, hval⟩ := natChars_spec n
  obtain ⟨htake, hdrop⟩ := takeWhile_append_all (natChars n) hall c hc t
  have hemp : (natChars n).isEmpty = false := by
    cases hE : natChars n with
    | nil => exact absurd hE hne
    | cons d ds => rfl
  simp only [parseNat, htake, hdrop, hemp, Bool.false_eq_true, if_false, hval]

theorem parseInt_intChars (i : Int) (c : Char) (hc : isDigitCh c = false) (t : List Char) :
    parseInt (intChars i ++ c :: t) = some (i, c :: t) := by
  by_cases hi : i < 0
  · rw [show intChars i ++ c :: t = '-' :: (natChars (-i).toNat ++ c :: t) from by
      simp [intChars, if_pos hi]]
    simp only [parseInt, List.head?_cons, List.tail_cons, reduceIte,
      parseNat_natChars _ c hc t]
    have hcast : (((-i).toNat : Int)) = -i := Int.toNat_of_nonneg (by omega)
    rw [hcast]
    simp
  · rw [show intChars i ++ c :: t = natChars i.toNat ++ c :: t from by
      simp [intChars, hi]]
    have hdne : ((natChars i.toNat ++ c :: t).head?) ≠ some '-' := by
      cases hN : natChars i.toNat with
      | nil => exact absurd hN (natChars_spec _).2.1
      | cons d ds =>
        have hd : isDigitCh d = true := by
          have hall := (natChars_spec i.toNat).1
          rw [hN] at hall
          simp only [List.all_cons, Bool.and_eq_true] at hall
          exact hall.1
        rw [List.cons_append, List.head?_cons]
        intro heq
        simp only [Option.some.injEq] at heq
        subst heq
        exact absurd hd (by decide)
    unfold parseInt
    rw [if_neg hdne, parseNat_natChars i.toNat c hc t]
    have hcast : ((i.toNat : Int)) = i := Int.toNat_of_nonneg (by omega)
    simp [hcast]

theorem parseInt_before_qc (i : Int) (t : List Char) :
    parseInt (intChars i ++ (",\n  \"questionsCount\": ".data ++ t)) =
      some (i, ",\n  \"questionsCount\": ".data ++ t) := by
  rw [show ",\n  \"questionsCount\": ".data ++ t =
        ',' :: ("\n  \"questionsCount\": ".data ++ t) from rfl]
  exact parseInt_intChars i ',' (by decide) _

theorem parseInt_before_lm (i : Int) (t : List Char) :
    parseInt (intChars i ++ (",\n  \"longestMonologue\": ".data ++ t)) =
      some (i, ",\n  \"longestMonologue\": ".data ++ t) := by
  rw [show ",\n  \"longestMonologue\": ".data ++ t =
        ',' :: ("\n  \"longestMonologue\": ".data ++ t) from rfl]
  exact parseInt_intChars i ',' (by decide) _

theorem parseInt_before_sent (i : Int) (t : List Char) :
    parseInt (intChars i ++ (",\n  \"sentiment\": ".data ++ t)) =
      some (i, ",\n  \"sentiment\": ".data ++ t) := by
  rw [show ",\n  \"sentiment\": ".data ++ t =
        ',' :: ("\n  \"sentiment\": ".data ++ t) from rfl]
  exact parseInt_intChars i ',' (by decide) _

/-! ### String, sentiment and array round trips -/

theorem parseJString_jstr (s : String) (rest : List Char) :
    parseJString (jstr s ++ rest) = some (s, rest) := by
  rw [show jstr s ++ rest = '"' :: (escapeList s.data ++ '"' :: rest) from by
    simp [jstr, List.append_assoc]]
  simp only [parseJString, List.head?_cons, Option.some.injEq, List.tail_cons, reduceIte,
    parseStrBody_escape]

theorem parseSentiment_sentimentStr (s : Sentiment) :
    parseSentiment (sentimentStr s) = some s := by
  cases s <;> decide

theorem dropLit_self (p t : List Char) : dropLit p (p ++ t) = some t :=
  dropLit_eq_some.2 rfl

theorem dropLit_all (p : List Char) : dropLit p p = some [] :=
  dropLit_eq_some.2 (by simp)

theorem dropLit_nil (cs : List Char) : dropLit [] cs = some cs := rfl

theorem dropLit_cons_cons (p c : Char) (ps cs : List Char) :
    dropLit (p :: ps) (c :: cs) = if p = c then dropLit ps cs else none := rfl

theorem two_le_jstr_length (s : String) : 2 ≤ (jstr s).length := by
  simp [jstr]

theorem jsonItems_length : ∀ xs : List String, xs ≠ [] → xs.length ≤ (jsonItems xs).length := by
  intro xs
  induction xs with
  | nil => intro h; exact absurd rfl h
  | cons x xs ih =>
    intro _
    cases xs with
    | nil =>
      have := two_le_jstr_length x
      simp [jsonItems]
      omega
    | cons y ys =>
      have h1 := two_le_jstr_length x
      have h2 := ih (by simp)
      simp only [jsonItems, List.length_append, List.length_cons] at h2 ⊢
      have h3 : (",\n    ".data).length = 6 := rfl
      omega

theorem parseArrItems_jsonItems :
    ∀ (xs : List String) (fuel : Nat), xs ≠ [] → xs.length ≤ fuel →
      ∀ rest : List Char,
        parseArrItems fuel (jsonItems xs ++ ('\n' :: ' ' :: ' ' :: ']' :: rest)) =
          some (xs, rest) := by
  intro xs
  induction xs with
  | nil => intro fuel h _ _; exact absurd rfl h
  | cons x xs ih =>
    intro fuel _ hlen rest
    rcases fuel with _ | f
    · simp at hlen
    · cases xs with
      | nil =>
        simp only [jsonItems]
        simp only [parseArrItems, parseJString_jstr, dropLit_cons_cons, dropLit_nil,
          Char.reduceEq, reduceIte, List.cons_append]
      | cons y ys =>
        simp only [jsonItems, List.append_assoc, List.cons_append]
        simp only [parseArrItems, parseJString_jstr, dropLit_cons_cons, dropLit_nil,
          Char.reduceEq, reduceIte, List.cons_append, List.nil_append]
        rw [ih f (by simp) (by simp at hlen ⊢; omega) rest]

theorem parseArr_jsonArr (xs : List String) (rest : List Char) :
    parseArr (jsonArr xs ++ rest) = some (xs, rest) := by
  cases xs with
  | nil =>
    show parseArr ("[]".data ++ rest) = some ([], rest)
    simp only [parseArr, dropLit_cons_cons, dropLit_nil, Char.reduceEq, reduceIte,
      List.cons_append, List.nil_append]
  | cons x xs =>
    show parseArr (("[\n    ".data ++ (jsonItems (x :: xs) ++ "\n  ]".data)) ++ rest) =
      some (x :: xs, rest)
    simp only [List.append_assoc, List.cons_append]
    simp only [parseArr, dropLit_cons_cons, dropLit_nil, Char.reduceEq, reduceIte,
      List.cons_append, List.nil_append]
    have hb : (x :: xs).length ≤
        (jsonItems (x :: xs) ++ ('\n' :: ' ' :: ' ' :: ']' :: rest)).length + 1 := by
      have h1 := jsonItems_length (x :: xs) (by simp)
      simp only [List.length_append] at h1 ⊢
      omega
    rw [parseArrItems_jsonItems (x :: xs) _ (by simp) hb rest]

set_option maxHeartbeats 12000000 in
theorem jsonDecode_jsonEncode (r : AnalysisResult) : jsonDecode (jsonEncode r) = some r := by
  obtain ⟨ttr, qc, lm, sent, ins, tr⟩ := r
  show jsonDecodeChars (jsonEncodeChars ⟨ttr, qc, lm, sent, ins, tr⟩) =
    some ⟨ttr, qc, lm, sent, ins, tr⟩
  simp only [jsonEncodeChars, jsonDecodeChars, Option.bind_eq_bind]
  simp only [List.append_assoc, List.cons_append, List.nil_append]
  simp only [Option.some_bind, dropLit_cons_cons, dropLit_nil, Char.reduceEq, reduceIte,
    parseInt_intChars, parseJString_jstr, parseSentiment_sentimentStr, parseArr_jsonArr,
    show isDigitCh ',' = false from by decide]

example : validateUrl "https://www.youtube.com/watch?v=abc123" = true := by decide
example : validateUrl "youtu.be/abc123" = true := by decide
example : validateUrl "http://youtube.com/x" = true := by decide
example : validateUrl "youtube/x" = true := by decide
example : validateUrl "" = false := by decide
example : validateUrl "not a url" = false := by decide
example : validateUrl "https://vimeo.com/123" = false := by decide
example : validateUrl "youtube.com/" = false := by decide

/-! ### Controller lemmas -/

theorem foldl_applyTimer : ∀ (l : List Nat) (c : ControllerState),
    l.foldl (fun acc _ => applyAnalysisTimer acc) c =
      if l = [] then c else applyAnalysisTimer c := by
  intro l
  induction l with
  | nil => intro c; simp
  | cons x xs ih =>
    intro c
    rw [List.foldl_cons, ih (applyAnalysisTimer c)]
    by_cases hxs : xs = []
    · simp [hxs]
    · rw [if_neg hxs, if_neg (List.cons_ne_nil x xs)]
      rfl

/-! ### Claim theorems -/

/-- Claim C1: `validateUrl` returns `true` for exactly the strings in the
language of the source regular expression
`^(https?:\/\/)?(www\.)?(youtube\.com|youtu\.?be)\/.+$` — transliterated as
`youtubeRegex` — and `false` for every other string, including the empty
string.  Purity is inherent to the embedding: `validateUrl` is a Lean
function of its input alone, so equal inputs give equal outputs and there are
no side effects, matching the source's effect-free `RegExp.test` call. -/
theorem validateUrl_iff_regex (s : String) :
    validateUrl s = true ↔ Matches youtubeRegex s.data :=
  hostPatternMatch_iff.trans matches_youtubeRegex_iff.symm

/-- Claim C3, counterexample: the claim's host enumeration — `youtube.com`,
`youtu.be`, or `youtu.be` with a stray period — does not describe
`validateUrl`: the string `"youtube/x"` is accepted, yet its host part is the
bare `youtube` (the optional period of `youtu\.?be` omitted), which is none
of the claimed spellings wherever the stray period is placed, so the claim's
"every string whose host is anything else is rejected" fails at it. -/
theorem validateUrl_claimC3_counterexample :
    validateUrl "youtube/x" = true ∧ ¬ UrlShape claimC3Hosts "youtube/x".data := by
  refine ⟨by decide, fun h => ?_⟩
  have hb : hostPatternMatch claimC3Hosts "youtube/x".data = true :=
    hostPatternMatch_iff.2 h
  have hf : hostPatternMatch claimC3Hosts "youtube/x".data = false := by decide
  rw [hb] at hf
  exact Bool.noConfusion hf

/-- Claim C3 (amended): `validateUrl s` is true exactly when `s` consists of
an optional `http`/`https` scheme, an optional `www.` prefix, a host spelled
`youtube.com`, `youtu.be`, or `youtube` (the `youtu\.?be` alternative with
the optional period omitted), then `/` and one or more characters none of
which is a line terminator; every string with any other host is rejected. -/
theorem validateUrl_shape_iff (s : String) :
    validateUrl s = true ↔ UrlShape youtubeHosts s.data :=
  hostPatternMatch_iff

set_option maxRecDepth 20000 in
/-- Claim C2 fails on the code (code bug): after `submit(url1)` at t = 0 and
`submit(url2)` at t = 1000 — both URLs valid — the first cycle's
`setTimeout` callback, which the source neither cancels nor guards, fires at
t = 2000 and writes its resolution into the visible state: the controller
shows `Success(mockResult)` with the loading flag cleared while the second
cycle's timer (deadline t = 3000) is still pending, i.e. a visible state
derived from the superseded cycle's resolution, which the claim requires the
controller to discard. -/
theorem staleResolution_updates_state :
    (run overlapTrace initWorld).ctrl.isLoading = false ∧
    (run overlapTrace initWorld).ctrl.result = some mockResult ∧
    (run overlapTrace initWorld).timers = [3000] :=
  ⟨by decide, by decide, by decide⟩

/-- Claim C4: `handleSubmit` clears the previously held result and the
previously displayed error on every invocation, before validation — so
whatever the prior state, afterwards the result is `none`, the error can only
be `none` or the fresh validation message (never a stale one), and when the
submitted URL is valid the cycle enters `Loading` with result and error both
cleared. -/
theorem handleSubmit_clears (now : Nat) (w : World) :
    (handleSubmit now w).ctrl.result = none ∧
    ((handleSubmit now w).ctrl.error = none ∨
      (handleSubmit now w).ctrl.error = some invalidUrlMsg) ∧
    (validateUrl w.ctrl.url = true →
      (handleSubmit now w).ctrl.error = none ∧
      (handleSubmit now w).ctrl.isLoading = true) := by
  cases hv : validateUrl w.ctrl.url with
  | false => simp [handleSubmit, hv]
  | true => simp [handleSubmit, hv]

/-- Witness for C4 at a concrete world: the prior state holds a stale result
and a stale error and the input is a valid URL; after submit the result and
error are cleared and the loading state is entered. -/
theorem handleSubmit_clears_witness :
    (handleSubmit 0 staleWorld).ctrl.result = none ∧
    (handleSubmit 0 staleWorld).ctrl.error = none ∧
    (handleSubmit 0 staleWorld).ctrl.isLoading = true := by
  obtain ⟨h1, _, h3⟩ := handleSubmit_clears 0 staleWorld
  obtain ⟨h4, h5⟩ := h3 (by decide)
  exact ⟨h1, h4, h5⟩

/-- Claim C5: when the current input fails validation, submit issues no
backend call (the pending-timer list is unchanged), does not enter the
loading state (the flag is unchanged), holds no result, and surfaces the
fixed, non-empty validation error message. -/
theorem handleSubmit_invalid (now : Nat) (w : World)
    (h : validateUrl w.ctrl.url = false) :
    (handleSubmit now w).timers = w.timers ∧
    (handleSubmit now w).ctrl.error = some invalidUrlMsg ∧
    invalidUrlMsg ≠ "" ∧
    (handleSubmit now w).ctrl.isLoading = w.ctrl.isLoading ∧
    (handleSubmit now w).ctrl.result = none := by
  refine ⟨?_, ?_, by decide, ?_, ?_⟩ <;> simp [handleSubmit, h]

/-- Witness for C5 at the initial world, whose empty input fails
validation. -/
theorem handleSubmit_invalid_witness :
    (handleSubmit 0 initWorld).timers = initWorld.timers ∧
    (handleSubmit 0 initWorld).ctrl.error = some invalidUrlMsg ∧
    invalidUrlMsg ≠ "" ∧
    (handleSubmit 0 initWorld).ctrl.isLoading = initWorld.ctrl.isLoading ∧
    (handleSubmit 0 initWorld).ctrl.result = none :=
  handleSubmit_invalid 0 initWorld (by decide)

/-- Claim C9: every firing of the mock backend timer writes the single fixed
`mockResult` — whatever the controller state and whichever valid URL started
the cycle, since the callback closes over nothing submission-specific — and
leaves the loading state; and `mockResult` is a complete `AnalysisResult`
(all six fields, by its type) satisfying the data-model constraints:
`talkTimeRatio` is an integer between 0 and 100, `questionsCount` and
`longestMonologue` are non-negative integers, and `sentiment` is one of the
three enumerated values. -/
theorem mockBackend_fixed_and_wellFormed :
    (∀ c : ControllerState, (applyAnalysisTimer c).result = some mockResult ∧
      (applyAnalysisTimer c).isLoading = false) ∧
    0 ≤ mockResult.talkTimeRatio ∧ mockResult.talkTimeRatio ≤ 100 ∧
    0 ≤ mockResult.questionsCount ∧ 0 ≤ mockResult.longestMonologue ∧
    (mockResult.sentiment = Sentiment.positive ∨
      mockResult.sentiment = Sentiment.neutral ∨
      mockResult.sentiment = Sentiment.negative) :=
  ⟨fun _ => ⟨rfl, rfl⟩, by decide, by decide, by decide, by decide, Or.inl rfl⟩

/-- Claim C6: with no current result, export is a no-op for both kinds: the
handler returns before producing any file content or triggering any
download, and — being a total function — raises no error. -/
theorem handleDownload_noResult (kind : DownloadKind) :
    handleDownload none kind = none := rfl

/-- Claim C7: with a current result, the transcript export emits exactly the
`transcript` field as its content, with mime type `text/plain` and filename
`sales-analysis.txt`.  `handleDownload` is a function of the current result
and the kind alone, so its output is independent of how many times and in
which order it is invoked. -/
theorem handleDownload_transcript (r : AnalysisResult) :
    handleDownload (some r) DownloadKind.transcript =
      some { content := r.transcript, mime := "text/plain",
             filename := "sales-analysis.txt" } := by
  simp only [handleDownload]
  rw [show ("sales-analysis." ++ "txt" : String) = "sales-analysis.txt" from by decide]

/-- Claim C8: with a current result, the structured export is the 2-space
indented JSON serialisation of the entire `AnalysisResult`, with mime type
`application/json` and filename `sales-analysis.json`; and the encoding is
lossless: decoding the exported content recovers a value equal to the
original result. -/
theorem handleDownload_json_roundtrip (r : AnalysisResult) :
    handleDownload (some r) DownloadKind.json =
      some { content := jsonEncode r, mime := "application/json",
             filename := "sales-analysis.json" } ∧
    jsonDecode (jsonEncode r) = some r := by
  constructor
  · simp only [handleDownload]
    rw [show ("sales-analysis." ++ "json" : String) = "sales-analysis.json" from by decide]
  · exact jsonDecode_jsonEncode r

/-- Claim C10, counterexample: submit a valid URL (entering `Loading`), then
— while the backend timer is still pending — submit again with an invalid
URL.  The second submission sets the error message but leaves the loading
flag true, reaching a visible state with `isLoading = true` and a non-null
error: the event handlers do not keep the claimed invariant. -/
theorem loadInv_counterexample :
    (run loadingInvalidTrace initWorld).ctrl.isLoading = true ∧
    (run loadingInvalidTrace initWorld).ctrl.error = some invalidUrlMsg ∧
    ¬ LoadInv (run loadingInvalidTrace initWorld).ctrl := by
  refine ⟨by decide, by decide, fun h => ?_⟩
  exact absurd (h (by decide)).2 (by decide)

/-- Claim C10 (amended): the result half of the invariant is kept
unconditionally — after any event, while the loading flag is set the result
is null — and the full invariant (result and error both null while loading)
is kept by every event handler provided no invalid URL is submitted while
loading, which the UI enforces by disabling the submit button during the
loading state. -/
theorem loadInv_amended (w : World) (e : Event) :
    ((w.ctrl.isLoading = true → w.ctrl.result = none) →
      ((step e w).ctrl.isLoading = true → (step e w).ctrl.result = none)) ∧
    (LoadInv w.ctrl →
      (∀ now, e = Event.submit now →
        validateUrl w.ctrl.url = true ∨ w.ctrl.isLoading = false) →
      LoadInv (step e w).ctrl) := by
  cases e with
  | changeUrl s =>
    exact ⟨fun h hl => h hl, fun hinv _ hl => hinv hl⟩
  | submit now =>
    refine ⟨fun _ => ?_, fun hinv hguard => ?_⟩
    · cases hv : validateUrl w.ctrl.url <;> simp [step, handleSubmit, hv]
    · intro hl
      rcases hguard now rfl with hval | hnl
      · simp [step, handleSubmit, hval]
      · cases hv : validateUrl w.ctrl.url with
        | true => simp [step, handleSubmit, hv]
        | false =>
          exfalso
          have hsame : (step (Event.submit now) w).ctrl.isLoading = w.ctrl.isLoading := by
            simp [step, handleSubmit, hv]
          rw [hsame, hnl] at hl
          exact Bool.noConfusion hl
  | tick now =>
    have hstep : (step (Event.tick now) w).ctrl =
        if (w.timers.filter fun t => decide (t ≤ now)) = [] then w.ctrl
        else applyAnalysisTimer w.ctrl := by
      simp only [step, fireDue]
      exact foldl_applyTimer _ _
    refine ⟨fun h hl => ?_, fun hinv hguard hl => ?_⟩
    · rw [hstep] at hl ⊢
      by_cases hd : (w.timers.filter fun t => decide (t ≤ now)) = []
      · rw [if_pos hd] at hl ⊢
        exact h hl
      · rw [if_neg hd] at hl
        exact absurd hl (by simp [applyAnalysisTimer])
    · rw [hstep] at hl ⊢
      by_cases hd : (w.timers.filter fun t => decide (t ≤ now)) = []
      · rw [if_pos hd] at hl ⊢
        exact hinv hl
      · rw [if_neg hd] at hl
        exact absurd hl (by simp [applyAnalysisTimer])

/-- Witness for the amended C10 at a concrete input: a valid submission from
a world that satisfies the invariant and is not loading. -/
theorem loadInv_amended_witness :
    (step (Event.submit 5) staleWorld).ctrl.result = none ∧
    LoadInv (step (Event.submit 5) staleWorld).ctrl :=
  ⟨(loadInv_amended staleWorld (Event.submit 5)).1 (by decide) (by decide),
   (loadInv_amended staleWorld (Event.submit 5)).2
     (by intro h; exact absurd h (by decide))
     (fun _ _ => Or.inl (by decide))⟩
